import Mathlib

/-!
Verification of the Plot Consolidation Engine of `src/tools/plotmap/plotmap.py`
(Minecraft plot map generator).

The Python program works on a JSON document of shape
`{"worldZones": {dim_id: {"areaZones": [zone, ...]}}}` where each zone dict has
a `name`, an `area` dict with `low`/`high` coordinate dicts, a
`groupPermissions` dict and a `playerPermissions` dict.  The shallow embedding
below mirrors those dicts with records:

* a key that the code reads with `dict.get` (and which may be absent) becomes
  an `Option` field;
* remaining key/value pairs that the code never touches become an `extra`
  association list, so that frame properties ("every other field is preserved")
  are expressible;
* JSON object keys of `worldZones` are written by the code with `str(dim)` and
  read with `int(dim_str)`, so they are modelled by their integer value;
* Python dict iteration order is insertion order, so dicts iterated by the
  code become association lists;
* code that can raise `KeyError` (bare `d[k]` indexing in `Plot.merge` and
  `update_json_with_merged_plots`) returns `Option`, with `none` marking the
  raised exception;
* Python `while` loops are written with explicit fuel; lemmas below show the
  chosen fuel is large enough, so the fuelled function agrees with the
  unbounded loop.
-/

/-- Model of a JSON coordinate dict such as `{"x": 1, "z": 2, ...}`.
`x?`/`z?` are the keys read by `low.get("x", 0)` etc.; `extra` stands for any
other keys (for example `"y"`), which the code never reads or writes. -/
structure CoordDict where
  x? : Option Int := none
  z? : Option Int := none
  extra : List (String × Int) := []
deriving DecidableEq, Repr

/-- Model of a zone's `area` dict, holding the `low` and `high` corner dicts. -/
structure AreaRect where
  low? : Option CoordDict := none
  high? : Option CoordDict := none
  extra : List (String × Int) := []
deriving DecidableEq, Repr

/-- Model of one `AreaZone` dict of the document.  `groupPermissions` maps a
group key to a permission map (permission key → value) and
`playerPermissions` maps a composite `(uuid|name)` key to a permission map;
both are association lists in document order.  `extra` stands for all other
keys of the zone dict, untouched by the code. -/
structure AreaZone where
  name? : Option String := none
  area? : Option AreaRect := none
  groupPermissions : List (String × List (String × String)) := []
  playerPermissions : List (String × List (String × String)) := []
  extra : List (String × Int) := []
deriving DecidableEq, Repr

/-- Model of one dimension's entry of `worldZones`: the `areaZones` list plus
any other keys. -/
structure ZoneData where
  areaZones : List AreaZone := []
  extra : List (String × Int) := []
deriving DecidableEq, Repr

/-- Model of the raw JSON document.  `worldZones` is keyed by the integer
value of the dimension id. -/
structure RawDoc where
  worldZones : List (Int × ZoneData) := []
  extra : List (String × Int) := []
deriving DecidableEq, Repr

/-- The `Plot` dataclass of the source. -/
structure Plot where
  name : String
  display_name : String
  owner_uuid : String
  owner_name : String
  x_min : Int
  z_min : Int
  x_max : Int
  z_max : Int
  dimension : Int
  original_area_data : AreaZone
deriving DecidableEq, Repr

/-- `Plot.get_area_m2`: `(abs(x_max - x_min) + 1) * (abs(z_max - z_min) + 1)`. -/
def Plot.get_area_m2 (self : Plot) : Int :=
  let width := |self.x_max - self.x_min| + 1
  let depth := |self.z_max - self.z_min| + 1
  width * depth

/-- `Plot.get_price`: area times 256. -/
def Plot.get_price (self : Plot) : Int :=
  self.get_area_m2 * 256

/-- `Plot.can_merge`: same dimension and owner, and the rectangles adjacent
horizontally (equal z-range, x-ranges touching) or vertically (equal x-range,
z-ranges touching). -/
def Plot.can_merge (self other : Plot) : Bool :=
  if self.dimension ≠ other.dimension ∨ self.owner_uuid ≠ other.owner_uuid then
    false
  else if self.z_min = other.z_min ∧ self.z_max = other.z_max ∧
      (self.x_max + 1 = other.x_min ∨ other.x_max + 1 = self.x_min) then
    true
  else if self.x_min = other.x_min ∧ self.x_max = other.x_max ∧
      (self.z_max + 1 = other.z_min ∨ other.z_max + 1 = self.z_min) then
    true
  else
    false

/-- `Plot.merge`: bounding box of the two plots, the display-name combination
policy of the source, and an updated copy of `plot1`'s original area data.
The Python code performs `merged_area['area']['low']['x'] = x_min` (and the
three analogous assignments) with bare indexing, which raises `KeyError` when
`plot1.original_area_data` has no `area` key or its area has no `low` or
`high`; that exception is modelled by returning `none`. -/
def Plot.merge (plot1 plot2 : Plot) : Option Plot :=
  let x_min := min plot1.x_min plot2.x_min
  let z_min := min plot1.z_min plot2.z_min
  let x_max := max plot1.x_max plot2.x_max
  let z_max := max plot1.z_max plot2.z_max
  let merged_display_name :=
    if "_PLOT_".data.isPrefixOf plot1.display_name.data
        && "_PLOT_".data.isPrefixOf plot2.display_name.data then
      "_MERGED_PLOT_"
    else if !("_PLOT_".data.isPrefixOf plot1.display_name.data) then
      plot1.display_name
    else if !("_PLOT_".data.isPrefixOf plot2.display_name.data) then
      plot2.display_name
    else
      plot1.display_name ++ " + " ++ plot2.display_name
  match plot1.original_area_data.area? with
  | none => none
  | some ar =>
    match ar.low?, ar.high? with
    | some lo, some hi =>
      some
        { name := plot1.name
          display_name := merged_display_name
          owner_uuid := plot1.owner_uuid
          owner_name := plot1.owner_name
          x_min := x_min
          z_min := z_min
          x_max := x_max
          z_max := z_max
          dimension := plot1.dimension
          original_area_data :=
            { plot1.original_area_data with
              area? := some
                { ar with
                  low? := some { lo with x? := some x_min, z? := some z_min }
                  high? := some { hi with x? := some x_max, z? := some z_max } } } }
    | _, _ => none

/-- The decimal digit character for `d` (`d ≥ 9` is clamped to `'9'`; the
functions below only apply it to `d < 10`). -/
def digitChar10 (d : Nat) : Char :=
  match d with
  | 0 => '0' | 1 => '1' | 2 => '2' | 3 => '3' | 4 => '4'
  | 5 => '5' | 6 => '6' | 7 => '7' | 8 => '8' | _ => '9'

/-- Numeric value of a decimal digit character. -/
def digitVal (c : Char) : Nat :=
  c.toNat - 48

/-- Decimal digits of `n`, most significant first, computed with explicit
fuel (`fuel > n` always suffices since `n / 10 < n` for `n ≥ 10`). -/
def natToDigitsAux : Nat → Nat → List Char
  | 0, _ => []
  | fuel + 1, n =>
    if n < 10 then [digitChar10 n]
    else natToDigitsAux fuel (n / 10) ++ [digitChar10 (n % 10)]

/-- Decimal representation of `n`, the model of Python's `str(n)` /
f-string formatting for a nonnegative integer. -/
def natToStr (n : Nat) : String :=
  String.mk (natToDigitsAux (n + 1) n)

/-- The value of a list of decimal digit characters, the model of Python's
`int(...)` on a digit string. -/
def parseDigits (cs : List Char) : Nat :=
  cs.foldl (fun acc c => acc * 10 + digitVal c) 0

/-- `extract_plot_number`: `re.match` with pattern `_PLOT_` followed by digits
anchors at the start of the string only, so it strips the literal `_PLOT_`,
takes the longest run of digits that follows (ignoring any trailing
characters), and returns its value; it fails when the literal is absent or no
digit follows it. -/
def extract_plot_number (name : String) : Option Nat :=
  if "_PLOT_".data.isPrefixOf name.data then
    let ds := (name.data.drop 6).takeWhile Char.isDigit
    if ds.isEmpty then none else some (parseDigits ds)
  else none

/-- The zones of all dimensions in document order, as iterated by
`renumber_plots` and `parse_plots`. -/
def docZones (doc : RawDoc) : List AreaZone :=
  doc.worldZones.flatMap fun p => p.2.areaZones

/-- The plot numbers of all zone names, in document order
(`area.get("name", "")` fed to `extract_plot_number`). -/
def numbersList (doc : RawDoc) : List Nat :=
  (docZones doc).filterMap fun z => extract_plot_number (z.name?.getD "")

/-- The set `existing_numbers` built by `renumber_plots`. -/
def docNumbers (doc : RawDoc) : Finset Nat :=
  (numbersList doc).toFinset

/-- One zone's renaming step of `renumber_plots`: when the zone name carries a
plot number that the mapping sends to a different number, the whole name is
replaced by `_PLOT_<new>` and one rename is counted.  `sortedNums` is the
ascending list of distinct existing numbers; the rank mapping
`old ↦ sortedNums.indexOf old + 1` is the source's `number_mapping`. -/
def zoneRename (existing : Finset Nat) (sortedNums : List Nat) (z : AreaZone) :
    AreaZone × Nat :=
  match extract_plot_number (z.name?.getD "") with
  | none => (z, 0)
  | some oldNum =>
    if oldNum ∈ existing then
      let newNum := sortedNums.indexOf oldNum + 1
      if oldNum ≠ newNum then
        ({ z with name? := some ("_PLOT_" ++ natToStr newNum) }, 1)
      else (z, 0)
    else (z, 0)

/-- `renumber_plots`: if the set of plot numbers is empty or already the
contiguous range `{1, …, count}`, return the document unchanged with zero
renames; otherwise rename every numbered zone to `_PLOT_<rank>` where rank is
the 1-based position of its old number in the ascending sorted set, counting
the names that actually change. -/
def renumber_plots (doc : RawDoc) : RawDoc × Nat :=
  let existing := docNumbers doc
  if existing = ∅ then (doc, 0)
  else if existing = Finset.Icc 1 existing.card then (doc, 0)
  else
    let sortedNums := List.insertionSort (· ≤ ·) (numbersList doc).dedup
    ({ doc with
        worldZones := doc.worldZones.map fun p =>
          (p.1, { p.2 with
            areaZones := p.2.areaZones.map fun z =>
              (zoneRename existing sortedNums z).1 }) },
      ((docZones doc).map fun z => (zoneRename existing sortedNums z).2).sum)

/-- Python `key in perms` / `perms[key]` on a permission dict: the value of
the first pair with the given key, if any. -/
def lookupPerm (perms : List (String × String)) (key : String) : Option String :=
  (perms.find? fun kv => kv.1 = key).map fun kv => kv.2

/-- The scan `for group, perms in group_perms.items(): if key in perms: take
perms[key]; break` — the value held by the first group that contains `key`. -/
def firstGroupValue (gp : List (String × List (String × String))) (key : String) :
    Option String :=
  match gp with
  | [] => none
  | (_, perms) :: rest =>
    match lookupPerm perms key with
    | some v => some v
    | none => firstGroupValue rest key

/-- Whether `pat` occurs as a contiguous sublist of `l`. -/
def isInfixList (pat : List Char) : List Char → Bool
  | [] => pat.isEmpty
  | c :: rest => pat.isPrefixOf (c :: rest) || isInfixList pat rest

/-- Python's substring test `pat in s`. -/
def containsSub (s pat : String) : Bool :=
  isInfixList pat.data s.data

/-- Python's `s.strip("()")`: remove leading and trailing parenthesis
characters. -/
def stripParens (s : String) : String :=
  String.mk (((s.data.dropWhile fun c => c = '(' ∨ c = ')').reverse.dropWhile
    fun c => c = '(' ∨ c = ')').reverse)

/-- The owner-name scan of `parse_plots` over `playerPermissions`: the first
composite key whose `fe.internal.player.groups` value contains `PLOT_OWNER`
and which splits (after stripping parentheses) into exactly two `|`-separated
parts whose first part equals the resolved owner uuid supplies the second
part; Python's `parts[0] == owner_uuid` is `False` when no owner was found. -/
def findOwnerName (pp : List (String × List (String × String)))
    (ownerUuid : Option String) : Option String :=
  match pp with
  | [] => none
  | (playerKey, perms) :: rest =>
    if containsSub ((lookupPerm perms "fe.internal.player.groups").getD "") "PLOT_OWNER"
        ∧ containsSub playerKey "|" then
      match (stripParens playerKey).splitOn "|" with
      | [a, b] =>
        match ownerUuid with
        | some u => if a = u then some b else findOwnerName rest ownerUuid
        | none => findOwnerName rest ownerUuid
      | _ => findOwnerName rest ownerUuid
    else findOwnerName rest ownerUuid

/-- The raw value found for the owner permission key, before the truthiness
check (`owner_uuid` just after the group scan of `parse_plots`). -/
def ownerUuidRaw (z : AreaZone) : Option String :=
  firstGroupValue z.groupPermissions "fe.internal.plot.owner"

/-- The list (empty or a singleton) of `Plot` entities that one zone
contributes to `parse_plots`'s result: display name from the naming
permission with fallback to the raw name, coordinates defaulting to 0 when
`area`/`low`/`high` are absent, and inclusion only when the owner value is
truthy (present and non-empty). -/
def zonePlots (dimension : Int) (area : AreaZone) : List Plot :=
  let name := area.name?.getD "Unknown"
  let displayRaw := firstGroupValue area.groupPermissions "fe.economy.plot.data.name"
  let display_name :=
    match displayRaw with
    | some v => if v = "" then name else v
    | none => name
  let owner_uuid := ownerUuidRaw area
  let owner_name := (findOwnerName area.playerPermissions owner_uuid).getD "Unknown"
  let low := area.area?.bind fun ar => ar.low?
  let high := area.area?.bind fun ar => ar.high?
  let x_min := (low.bind fun c => c.x?).getD 0
  let z_min := (low.bind fun c => c.z?).getD 0
  let x_max := (high.bind fun c => c.x?).getD 0
  let z_max := (high.bind fun c => c.z?).getD 0
  match owner_uuid with
  | some u =>
    if u ≠ "" then
      [{ name := name, display_name := display_name, owner_uuid := u,
         owner_name := owner_name, x_min := x_min, z_min := z_min,
         x_max := x_max, z_max := z_max, dimension := dimension,
         original_area_data := area }]
    else []
  | none => []

/-- `parse_plots`: every zone of every dimension, in document order, mapped
to its contributed plots. -/
def parse_plots (doc : RawDoc) : List Plot :=
  doc.worldZones.flatMap fun p => p.2.areaZones.flatMap (zonePlots p.1)

/-- The inner loop of one merge pass: the current plot `p` greedily absorbs,
in one left-to-right scan over the not-yet-used later plots, every plot that
is mergeable with its current (already grown) rectangle.  Returns the grown
plot, the plots left unconsumed (in order), and the names of the absorbed
plots (in absorption order); `none` propagates a `KeyError` from
`Plot.merge`. -/
def absorb (p : Plot) : List Plot → Option (Plot × List Plot × List String)
  | [] => some (p, [], [])
  | q :: qs =>
    if p.can_merge q then
      match Plot.merge p q with
      | none => none
      | some pq =>
        match absorb pq qs with
        | none => none
        | some (p', rem, rm) => some (p', rem, q.name :: rm)
    else
      match absorb p qs with
      | none => none
      | some (p', rem, rm) => some (p', q :: rem, rm)

/-- One full pass of the fixed-point loop (`for i, plot1 in enumerate(result)`
with the `used` set): the first unconsumed plot absorbs from its tail, is
appended to the new list, and the pass continues on the unconsumed remainder.
The fuel only bounds the recursion depth; `fuel ≥ length` always suffices
(`onePassAux_fuel` below). -/
def onePassAux : Nat → List Plot → Option (List Plot × List String)
  | _, [] => some ([], [])
  | 0, l => some (l, [])
  | fuel + 1, p :: rest =>
    match absorb p rest with
    | none => none
    | some (p', rem, rm) =>
      match onePassAux fuel rem with
      | none => none
      | some (l', rm2) => some (p' :: l', rm ++ rm2)

/-- One pass of the merge loop over the current list. -/
def onePass (l : List Plot) : Option (List Plot × List String) :=
  onePassAux l.length l

/-- The `while merged:` fixed-point loop: run a pass; if it performed at least
one merge (its removed-name list is nonempty, exactly when the source sets
`merged = True`), run another pass on the new list.  Also counts the executed
passes (a pass that raises counts as executed).  The fuel only bounds the
number of passes; `mergeLoopF_fuel` below shows `fuel ≥ max 1 length`
suffices, so the fuelled loop agrees with the unbounded `while`. -/
def mergeLoopF : Nat → List Plot → List String → Option (List Plot × List String) × Nat
  | 0, _, _ => (none, 0)
  | fuel + 1, l, acc =>
    match onePass l with
    | none => (none, 1)
    | some (l', rm) =>
      if rm.isEmpty then (some (l', acc ++ rm), 1)
      else
        let r := mergeLoopF fuel l' (acc ++ rm)
        (r.1, r.2 + 1)

/-- `merge_adjacent_plots`: empty input is returned unchanged; otherwise run
the fixed-point loop (fuel `length` suffices by `mergeLoopF_fuel` and the
pass bound).  `none` models a propagated `KeyError` from `Plot.merge`. -/
def merge_adjacent_plots (plots : List Plot) : Option (List Plot × List String) :=
  if plots.isEmpty then some (plots, [])
  else (mergeLoopF plots.length plots []).1

/-- Number of iterations of the `while merged:` loop that
`merge_adjacent_plots` executes. -/
def merge_passes (plots : List Plot) : Nat :=
  if plots.isEmpty then 0 else (mergeLoopF plots.length plots []).2

/-- A plot rectangle in the normal form the document invariant promises
(`low ≤ high` per axis). -/
def Plot.wfRect (p : Plot) : Prop :=
  p.x_min ≤ p.x_max ∧ p.z_min ≤ p.z_max

/-- Total covered area of a plot list: `sum(p.get_area_m2() for p in l)`. -/
def totalArea (l : List Plot) : Int :=
  (l.map Plot.get_area_m2).sum

instance (p : Plot) : Decidable p.wfRect := by
  unfold Plot.wfRect
  infer_instance

/-- The removal step of `update_json_with_merged_plots`: keep the zones whose
name (`area.get("name")`, `none` when absent) is not in the removed list. -/
def removeNamed (removed : List String) (zs : List AreaZone) : List AreaZone :=
  zs.filter fun z =>
    !(match z.name? with
      | some n => removed.contains n
      | none => false)

/-- The coordinate overwrite `area["area"]["low"]["x"] = plot.x_min` (and the
three analogous assignments) on one matched zone; bare indexing raises
`KeyError` (modelled by `none`) when the zone has no `area` key or its area
has no `low` or `high`. -/
def updateZoneCoords (p : Plot) (z : AreaZone) : Option AreaZone :=
  match z.area? with
  | none => none
  | some ar =>
    match ar.low?, ar.high? with
    | some lo, some hi =>
      some { z with
        area? := some { ar with
          low? := some { lo with x? := some p.x_min, z? := some p.z_min }
          high? := some { hi with x? := some p.x_max, z? := some p.z_max } } }
    | _, _ => none

/-- The `for area in area_zones: if area.get("name") == plot.name: …; break`
scan: update the first zone whose name equals the plot's identifier and keep
the rest; when no zone matches the list is unchanged. -/
def updateFirst (p : Plot) : List AreaZone → Option (List AreaZone)
  | [] => some []
  | z :: rest =>
    if z.name? = some p.name then
      match updateZoneCoords p z with
      | none => none
      | some z' => some (z' :: rest)
    else
      match updateFirst p rest with
      | none => none
      | some rest' => some (z :: rest')

/-- Apply one plot's coordinate update to the dimension entry whose key
matches `str(plot.dimension)`; when the dimension is absent, nothing
happens. -/
def updateDims (p : Plot) : List (Int × ZoneData) → Option (List (Int × ZoneData))
  | [] => some []
  | (d, zd) :: rest =>
    if d = p.dimension then
      match updateFirst p zd.areaZones with
      | none => none
      | some zs' => some ((d, { zd with areaZones := zs' }) :: rest)
    else
      match updateDims p rest with
      | none => none
      | some rest' => some ((d, zd) :: rest')

/-- `update_json_with_merged_plots`: on a copy of the document, first drop
from every dimension the zones whose name is in the removed list, then for
every surviving plot overwrite the four coordinate fields of the first zone
matching its identifier.  `none` models a propagated `KeyError`. -/
def update_json_with_merged_plots (doc : RawDoc) (merged_plots : List Plot)
    (removed_names : List String) : Option RawDoc :=
  let wz1 := doc.worldZones.map fun p =>
    (p.1, { p.2 with areaZones := removeNamed removed_names p.2.areaZones })
  let final := merged_plots.foldl (fun acc p => acc.bind (updateDims p)) (some wz1)
  final.map fun wz => { doc with worldZones := wz }

/-! ### Frame relations for the patcher

`update_json_with_merged_plots` is specified to change, in every surviving
zone, nothing but the four coordinate fields `low.x`, `low.z`, `high.x`,
`high.z`.  The relations below say exactly that: every component other than
those four is equal. -/

/-- Two optional corner dicts that agree on everything except possibly the
`x`/`z` entries. -/
def cornerFrame : Option CoordDict → Option CoordDict → Prop
  | none, none => True
  | some c, some c' => c.extra = c'.extra
  | _, _ => False

/-- Two optional area dicts that agree on everything except possibly the four
coordinate fields. -/
def areaFrame : Option AreaRect → Option AreaRect → Prop
  | none, none => True
  | some a, some a' =>
    a.extra = a'.extra ∧ cornerFrame a.low? a'.low? ∧ cornerFrame a.high? a'.high?
  | _, _ => False

/-- Two zones that are identical except possibly for the four coordinate
fields of their area. -/
def zoneFrame (z z' : AreaZone) : Prop :=
  z.name? = z'.name? ∧ z.groupPermissions = z'.groupPermissions ∧
    z.playerPermissions = z'.playerPermissions ∧ z.extra = z'.extra ∧
    areaFrame z.area? z'.area?

/-- The whole-document frame of the patcher: dimension keys and all other
zone-group data are preserved, zones named in the removed list are dropped,
and every surviving zone satisfies `zoneFrame` against its counterpart. -/
def docFrame (removed : List String) (doc out : RawDoc) : Prop :=
  out.extra = doc.extra ∧
    List.Forall₂ (fun (a b : Int × ZoneData) =>
        a.1 = b.1 ∧ a.2.extra = b.2.extra ∧
          List.Forall₂ zoneFrame (removeNamed removed a.2.areaZones) b.2.areaZones)
      doc.worldZones out.worldZones

/-! ### Concrete fixtures used by the witness and counterexample theorems -/

/-- A zone with complete area data and an owner group, used to build concrete
plots. -/
def mkZone (nm : String) (x1 z1 x2 z2 : Int) (own : String) : AreaZone :=
  { name? := some nm
    area? := some { low? := some { x? := some x1, z? := some z1 }
                    high? := some { x? := some x2, z? := some z2 } }
    groupPermissions := [("g", [("fe.internal.plot.owner", own)])] }

/-- A concrete plot (complete area data). -/
def mkPlot (nm dn : String) (x1 z1 x2 z2 : Int) (own : String) : Plot :=
  { name := nm, display_name := dn, owner_uuid := own, owner_name := "Unknown"
    x_min := x1, z_min := z1, x_max := x2, z_max := z2, dimension := 0
    original_area_data := mkZone nm x1 z1 x2 z2 own }

/-- Left half of spec scenario A, with the custom display name `Alice`. -/
def pAlice : Plot := mkPlot "A" "Alice" 0 0 9 9 "u1"

/-- Right half of spec scenario A, with the custom display name `Bob`. -/
def pBob : Plot := mkPlot "B" "Bob" 10 0 19 9 "u1"

/-- Second plot of spec scenario B: same owner and z-range as `pAlice` but
with a one-block gap at `x = 10`. -/
def pGap : Plot := mkPlot "B" "Bob" 11 0 20 9 "u1"

/-- A plot with inverted x-corners (`x_min = 5 > 0 = x_max`), still accepted
by `can_merge` against `pAfterInv`. -/
def pInverted : Plot := mkPlot "A" "_PLOT_1" 5 0 0 0 "u1"

/-- A well-formed plot whose `x_min` equals `pInverted.x_max + 1`. -/
def pAfterInv : Plot := mkPlot "B" "_PLOT_2" 1 0 10 0 "u1"

/-- Scenario D of the spec: the single-block plot `x[5,5] z[5,5]`. -/
def pSingle : Plot := mkPlot "D" "_PLOT_4" 5 5 5 5 "u1"

/-- The merged rectangle of scenario A: `x[0,19] z[0,9]`. -/
def pWide : Plot := mkPlot "A" "_PLOT_1" 0 0 19 9 "u1"

/-- A document whose only zone has an owner but no `area` key, so the
extractor accepts it (coordinates default to 0) while the patcher's bare
`area["area"]` indexing raises. -/
def docMissingArea : RawDoc :=
  { worldZones := [(0,
      { areaZones := [{ name? := some "_PLOT_1"
                        groupPermissions := [("g", [("fe.internal.plot.owner", "u1")])] }] })] }

/-- Document with zone names `_PLOT_3_old` and `_PLOT_5` (and an unnumbered
one), exercising the prefix matching of `extract_plot_number`. -/
def docSuffix : RawDoc :=
  { worldZones := [(0,
      { areaZones := [{ name? := some "_PLOT_3_old" },
                      { name? := some "_PLOT_5" },
                      { name? := some "house" }] })] }

/-- `docSuffix` after renumbering: the suffixed name is replaced wholesale by
`_PLOT_1`. -/
def docSuffixRenamed : RawDoc :=
  { worldZones := [(0,
      { areaZones := [{ name? := some "_PLOT_1" },
                      { name? := some "_PLOT_2" },
                      { name? := some "house" }] })] }

/-- A zone whose first owner-key group carries the empty string, a falsy
value in Python. -/
def zOwnerEmpty : AreaZone :=
  { name? := some "z"
    groupPermissions := [("g", [("fe.internal.plot.owner", "")])] }

/-- A zone with groups but no owner key at all. -/
def zOwnerAbsent : AreaZone :=
  { name? := some "z"
    groupPermissions := [("g", [("other", "1")])] }

/-- A two-zone document used to witness the patcher frame property. -/
def docPatch : RawDoc :=
  { worldZones := [(0,
      { areaZones := [mkZone "A" 0 0 1 1 "u1", mkZone "B" 5 5 6 6 "u1"]
        extra := [("k", 9)] })]
    extra := [("v", 1)] }

/-- The merged plot patched back into `docPatch` by the witness. -/
def pPatch : Plot := mkPlot "A" "Alice" 0 0 6 6 "u1"

/-- The result of patching `docPatch` with `pPatch` and removed list `["B"]`:
zone `B` dropped, zone `A`'s four coordinate fields overwritten, everything
else untouched. -/
def docPatchOut : RawDoc :=
  { worldZones := [(0,
      { areaZones := [mkZone "A" 0 0 6 6 "u1"]
        extra := [("k", 9)] })]
    extra := [("v", 1)] }

/-! ## Theorems -/

/-- C7: `get_area_m2` returns `(|x_max − x_min| + 1) × (|z_max − z_min| + 1)`
and `get_price` returns that area times 256; the single-block plot
`x[5,5] z[5,5]` has area 1 and price 256, and the plot spanning
`x[0,19] z[0,9]` has area 200 and price 51200. -/
theorem area_price_formulas :
    (∀ p : Plot,
      p.get_area_m2 = (|p.x_max - p.x_min| + 1) * (|p.z_max - p.z_min| + 1) ∧
      p.get_price = p.get_area_m2 * 256) ∧
    pSingle.get_area_m2 = 1 ∧ pSingle.get_price = 256 ∧
    pWide.get_area_m2 = 200 ∧ pWide.get_price = 51200 :=
  ⟨fun _ => ⟨rfl, rfl⟩, by decide, by decide, by decide, by decide⟩

/-- C1 (code bug evidence): merging two mergeable plots whose display names
`Alice` and `Bob` are both custom (neither starts with `_PLOT_`) yields the
first name `Alice`, not the concatenation `Alice + Bob` that the source's own
comment ("Display-Name kombinieren wenn beide custom names haben") and its
unreachable `else` branch intend. -/
theorem merge_drops_second_custom_name :
    pAlice.can_merge pBob = true ∧
    (Plot.merge pAlice pBob).map Plot.display_name = some "Alice" ∧
    "Alice" ≠ "Alice + Bob" :=
  ⟨by decide, by decide, by decide⟩

/-- C2 (code bug evidence): on a document whose only zone has an owner but no
`area` sub-object, the extractor tolerantly produces one plot (coordinates
defaulted to 0) and the merge engine returns it unchanged, but the patcher
raises `KeyError` (modelled by `none`) on its bare `area["area"]` indexing —
contradicting the specification that merge and patch never raise on
extractor output. -/
theorem patcher_raises_on_missing_area :
    (parse_plots docMissingArea).length = 1 ∧
    merge_adjacent_plots (parse_plots docMissingArea) =
      some (parse_plots docMissingArea, []) ∧
    update_json_with_merged_plots docMissingArea (parse_plots docMissingArea) [] =
      none :=
  ⟨by decide, by decide, by decide⟩

/-- C3 (counterexample to the unrestricted claim): with an inverted rectangle
(`x_min = 5 > 0 = x_max`, area `6`) adjacent to a well-formed one (area `10`),
`merge_adjacent_plots` merges them into a rectangle of area `10`, so the
total area drops from `16` to `10`. -/
theorem merge_area_not_conserved_on_inverted :
    merge_adjacent_plots [pInverted, pAfterInv] =
      some ([mkPlot "A" "_MERGED_PLOT_" 1 0 10 0 "u1"], ["B"]) ∧
    ([pInverted, pAfterInv].map Plot.get_area_m2).sum = 16 ∧
    ([mkPlot "A" "_MERGED_PLOT_" 1 0 10 0 "u1"].map Plot.get_area_m2).sum = 10 :=
  ⟨by decide, by decide, by decide⟩

/-- C9: a zone whose extracted owner value is the empty string (a falsy value
in Python) contributes no plot, exactly as when no owner key is present:
exclusion is decided by the truthiness of the extracted value. -/
theorem falsy_owner_excluded :
    (∀ (dim : Int) (z : AreaZone), ownerUuidRaw z = some "" → zonePlots dim z = []) ∧
    (∀ (dim : Int) (z : AreaZone), ownerUuidRaw z = none → zonePlots dim z = []) := by
  constructor <;> (intro dim z h; simp only [zonePlots]; rw [h]; try simp)

/-- Witness for C9 at concrete zones: the zone whose first owner-key group
carries `""` and the zone with no owner key both contribute no plot. -/
theorem falsy_owner_excluded_witness :
    zonePlots 0 zOwnerEmpty = [] ∧ zonePlots 0 zOwnerAbsent = [] :=
  ⟨falsy_owner_excluded.1 0 zOwnerEmpty (by decide),
   falsy_owner_excluded.2 0 zOwnerAbsent (by decide)⟩

/-- C10: `extract_plot_number` matches `_PLOT_<digits>` as a prefix (so
`_PLOT_3_old` is treated as plot number 3), and renumbering a document with
names `_PLOT_3_old` and `_PLOT_5` replaces the entire suffixed name with
`_PLOT_1`, discarding the trailing `_old`, renaming 2 zones. -/
theorem extract_prefix_match_and_rename :
    extract_plot_number "_PLOT_3_old" = some 3 ∧
    renumber_plots docSuffix = (docSuffixRenamed, 2) :=
  ⟨by decide, by decide⟩

/-- Characterization of `Plot.can_merge` (helper shared by several proofs
below). -/
theorem can_merge_eq (p q : Plot) :
    p.can_merge q = true ↔
      p.dimension = q.dimension ∧ p.owner_uuid = q.owner_uuid ∧
        ((p.z_min = q.z_min ∧ p.z_max = q.z_max ∧
            (p.x_max + 1 = q.x_min ∨ q.x_max + 1 = p.x_min)) ∨
         (p.x_min = q.x_min ∧ p.x_max = q.x_max ∧
            (p.z_max + 1 = q.z_min ∨ q.z_max + 1 = p.z_min))) := by
  simp only [Plot.can_merge]
  split_ifs with h1 h2 h3
  · simp only [false_iff]
    tauto
  · simp only [true_iff]
    refine ⟨?_, ?_, Or.inl h2⟩ <;> tauto
  · simp only [true_iff]
    refine ⟨?_, ?_, Or.inr h3⟩ <;> tauto
  · simp only [false_iff]
    tauto

/-- C6: `can_merge` returns true iff the plots have equal dimension and
owner and are horizontally or vertically adjacent; consequently two
rectangles (in `low ≤ high` normal form) separated by a gap of at least one
block on the relevant axis never merge. -/
theorem can_merge_characterization (p q : Plot) :
    (p.can_merge q = true ↔
      p.dimension = q.dimension ∧ p.owner_uuid = q.owner_uuid ∧
        ((p.z_min = q.z_min ∧ p.z_max = q.z_max ∧
            (p.x_max + 1 = q.x_min ∨ q.x_max + 1 = p.x_min)) ∨
         (p.x_min = q.x_min ∧ p.x_max = q.x_max ∧
            (p.z_max + 1 = q.z_min ∨ q.z_max + 1 = p.z_min)))) ∧
    (p.x_min ≤ p.x_max → q.x_min ≤ q.x_max → p.z_min ≤ p.z_max → q.z_min ≤ q.z_max →
      ((p.z_min = q.z_min ∧ p.z_max = q.z_max ∧
          (p.x_max + 2 ≤ q.x_min ∨ q.x_max + 2 ≤ p.x_min)) ∨
       (p.x_min = q.x_min ∧ p.x_max = q.x_max ∧
          (p.z_max + 2 ≤ q.z_min ∨ q.z_max + 2 ≤ p.z_min))) →
      p.can_merge q = false) := by
  refine ⟨can_merge_eq p q, ?_⟩
  intro hpx hqx hpz hqz hgap
  cases hcm : p.can_merge q with
  | false => rfl
  | true =>
    exfalso
    obtain ⟨-, -, hadj⟩ := (can_merge_eq p q).mp hcm
    rcases hgap with ⟨g1, g2, g3⟩ | ⟨g1, g2, g3⟩ <;>
      rcases hadj with ⟨a1, a2, a3⟩ | ⟨a1, a2, a3⟩ <;>
      rcases g3 with g3 | g3 <;> rcases a3 with a3 | a3 <;> omega

/-- Witness for C6 at spec scenario B: same owner, same z-range, but a
one-block gap at `x = 10`, so no merge. -/
theorem can_merge_characterization_witness : pAlice.can_merge pGap = false :=
  (can_merge_characterization pAlice pGap).2 (by decide) (by decide) (by decide)
    (by decide) (Or.inl ⟨by decide, by decide, Or.inl (by decide)⟩)

/-- `absorb` only partitions its input: consumed plus unconsumed elements
account for the whole tail. -/
theorem absorb_length : ∀ {rest : List Plot} {p p' : Plot} {rem : List Plot}
    {rm : List String}, absorb p rest = some (p', rem, rm) →
    rem.length + rm.length = rest.length := by
  intro rest
  induction rest with
  | nil =>
    intro p p' rem rm h
    simp only [absorb, Option.some.injEq, Prod.mk.injEq] at h
    obtain ⟨-, rfl, rfl⟩ := h
    rfl
  | cons q qs ih =>
    intro p p' rem rm h
    simp only [absorb] at h
    split at h
    · split at h
      · exact absurd h (by simp)
      · split at h
        · exact absurd h (by simp)
        · rename_i pq hm p2 rem2 rm2 habs
          simp only [Option.some.injEq, Prod.mk.injEq] at h
          obtain ⟨-, rfl, rfl⟩ := h
          have := ih habs
          simp only [List.length_cons]
          omega
    · split at h
      · exact absurd h (by simp)
      · rename_i p2 rem2 rm2 habs
        simp only [Option.some.injEq, Prod.mk.injEq] at h
        obtain ⟨-, rfl, rfl⟩ := h
        have := ih habs
        simp only [List.length_cons]
        omega

/-- A successful pass accounts for every input plot: survivors plus removed
names make up the input length. -/
theorem onePassAux_length : ∀ {fuel : Nat} {l l' : List Plot} {rm : List String},
    l.length ≤ fuel → onePassAux fuel l = some (l', rm) →
    l'.length + rm.length = l.length := by
  intro fuel
  induction fuel with
  | zero =>
    intro l l' rm hle h
    cases l with
    | nil =>
      simp only [onePassAux, Option.some.injEq, Prod.mk.injEq] at h
      obtain ⟨rfl, rfl⟩ := h
      rfl
    | cons p rest => simp at hle
  | succ fuel ih =>
    intro l l' rm hle h
    cases l with
    | nil =>
      simp only [onePassAux, Option.some.injEq, Prod.mk.injEq] at h
      obtain ⟨rfl, rfl⟩ := h
      rfl
    | cons p rest =>
      simp only [onePassAux] at h
      split at h
      · exact absurd h (by simp)
      · rename_i p2 rem2 rm2 habs
        split at h
        · exact absurd h (by simp)
        · rename_i l2 rm3 hop
          simp only [Option.some.injEq, Prod.mk.injEq] at h
          obtain ⟨rfl, rfl⟩ := h
          have hab := absorb_length habs
          have hrec : l2.length + rm3.length = rem2.length := by
            refine ih ?_ hop
            simp only [List.length_cons] at hle
            omega
          simp only [List.length_cons, List.length_append]
          omega

theorem onePass_length {l l' : List Plot} {rm : List String}
    (h : onePass l = some (l', rm)) : l'.length + rm.length = l.length :=
  onePassAux_length le_rfl h

/-- A pass over a nonempty list returns a nonempty list (the first plot
always survives, possibly grown). -/
theorem onePass_ne_nil {l l' : List Plot} {rm : List String}
    (h : onePass l = some (l', rm)) (hne : l ≠ []) : l' ≠ [] := by
  cases l with
  | nil => exact absurd rfl hne
  | cons p rest =>
    simp only [onePass, List.length_cons, onePassAux] at h
    split at h
    · exact absurd h (by simp)
    · split at h
      · exact absurd h (by simp)
      · rename_i _ _ _ _ l2 rm3 hop
        simp only [Option.some.injEq, Prod.mk.injEq] at h
        obtain ⟨rfl, -⟩ := h
        simp

/-- The fuel of `onePassAux` is irrelevant once it dominates the list length,
so `onePass` faithfully models the unbounded Python scan. -/
theorem onePassAux_fuel : ∀ {f1 f2 : Nat} {l : List Plot},
    l.length ≤ f1 → l.length ≤ f2 → onePassAux f1 l = onePassAux f2 l := by
  intro f1
  induction f1 with
  | zero =>
    intro f2 l h1 h2
    cases l with
    | nil => cases f2 <;> rfl
    | cons p rest => simp at h1
  | succ f1 ih =>
    intro f2 l h1 h2
    cases l with
    | nil => cases f2 <;> rfl
    | cons p rest =>
      cases f2 with
      | zero => simp at h2
      | succ f2 =>
        simp only [onePassAux]
        cases habs : absorb p rest with
        | none => rfl
        | some r =>
          obtain ⟨p2, rem2, rm2⟩ := r
          have hab := absorb_length habs
          simp only [List.length_cons] at h1 h2
          dsimp only
          rw [ih (by omega) (by omega : rem2.length ≤ f2)]

/-- A pass that merged something had at least two plots and keeps at least
one. -/
theorem mergeLoopF_two_le {l l' : List Plot} {rm : List String}
    (h : onePass l = some (l', rm)) (hrm : rm ≠ []) :
    1 ≤ l'.length ∧ 1 ≤ rm.length ∧ 2 ≤ l.length := by
  have hlen := onePass_length h
  have hne : l ≠ [] := by
    rintro rfl
    simp only [onePass, List.length_nil, onePassAux, Option.some.injEq,
      Prod.mk.injEq] at h
    obtain ⟨-, rfl⟩ := h
    exact hrm rfl
  have h1 : l' ≠ [] := onePass_ne_nil h hne
  have h2 : 1 ≤ l'.length := List.length_pos.mpr h1
  have h3 : 1 ≤ rm.length := List.length_pos.mpr hrm
  omega

/-- The fuel of `mergeLoopF` is irrelevant once it dominates
`max 1 (length)`, so `merge_adjacent_plots` (which passes `length`)
faithfully models the unbounded `while merged:` loop. -/
theorem mergeLoopF_fuel : ∀ {f1 f2 : Nat} {l : List Plot} {acc : List String},
    max 1 l.length ≤ f1 → max 1 l.length ≤ f2 →
    mergeLoopF f1 l acc = mergeLoopF f2 l acc := by
  intro f1
  induction f1 with
  | zero => intro f2 l acc h1 h2; omega
  | succ f1 ih =>
    intro f2 l acc h1 h2
    cases f2 with
    | zero => omega
    | succ f2 =>
      simp only [mergeLoopF]
      cases hop : onePass l with
      | none => rfl
      | some r =>
        obtain ⟨l', rm⟩ := r
        dsimp only
        by_cases hrm : rm.isEmpty
        · rw [if_pos hrm, if_pos hrm]
        · rw [if_neg hrm, if_neg hrm]
          have hrm' : rm ≠ [] := by
            cases rm
            · simp at hrm
            · simp
          obtain ⟨hl1, hr1, hl2⟩ := mergeLoopF_two_le hop hrm'
          have hlen := onePass_length hop
          rw [ih (by omega) (by omega : max 1 l'.length ≤ f2)]

/-- The pass counter of the fixed-point loop is bounded by
`max 1 (length)`. -/
theorem mergeLoopF_passes : ∀ {f : Nat} {l : List Plot} {acc : List String},
    max 1 l.length ≤ f → (mergeLoopF f l acc).2 ≤ max 1 l.length := by
  intro f
  induction f with
  | zero => intro l acc h; omega
  | succ f ih =>
    intro l acc h
    simp only [mergeLoopF]
    cases hop : onePass l with
    | none => simp
    | some r =>
      obtain ⟨l', rm⟩ := r
      dsimp only
      by_cases hrm : rm.isEmpty
      · rw [if_pos hrm]
        simp
      · rw [if_neg hrm]
        have hrm' : rm ≠ [] := by
          cases rm
          · simp at hrm
          · simp
        obtain ⟨hl1, hr1, hl2⟩ := mergeLoopF_two_le hop hrm'
        have hlen := onePass_length hop
        have hrec := @ih l' (acc ++ rm) (by omega)
        dsimp only
        omega

/-- C5: the fixed-point loop of `merge_adjacent_plots` terminates, executing
at most `n` iterations of the outer `while` loop for `n` input plots. -/
theorem merge_terminates_within_n_passes (plots : List Plot) :
    merge_passes plots ≤ plots.length := by
  simp only [merge_passes]
  by_cases h : plots.isEmpty
  · rw [if_pos h]
    omega
  · rw [if_neg h]
    have hne : plots ≠ [] := by cases plots <;> simp_all
    have hlen : 1 ≤ plots.length := List.length_pos.mpr hne
    have hb := @mergeLoopF_passes plots.length plots [] (by omega)
    omega

/-- Merging a mergeable pair of well-formed rectangles adds their areas
exactly, and the result is again well-formed. -/
theorem merge_area_wf {p q m : Plot} (hp : p.wfRect) (hq : q.wfRect)
    (hcm : p.can_merge q = true) (hm : Plot.merge p q = some m) :
    m.get_area_m2 = p.get_area_m2 + q.get_area_m2 ∧ m.wfRect := by
  obtain ⟨hpx, hpz⟩ := hp
  obtain ⟨hqx, hqz⟩ := hq
  obtain ⟨-, -, hadj⟩ := (can_merge_eq p q).mp hcm
  have hcoords : m.x_min = min p.x_min q.x_min ∧ m.z_min = min p.z_min q.z_min ∧
      m.x_max = max p.x_max q.x_max ∧ m.z_max = max p.z_max q.z_max := by
    simp only [Plot.merge] at hm
    split at hm
    · exact absurd hm (by simp)
    · split at hm
      · simp only [Option.some.injEq] at hm
        subst hm
        exact ⟨rfl, rfl, rfl, rfl⟩
      · exact absurd hm (by simp)
  obtain ⟨hx1, hz1, hx2, hz2⟩ := hcoords
  constructor
  · simp only [Plot.get_area_m2, hx1, hz1, hx2, hz2]
    rw [abs_of_nonneg (by omega : (0:Int) ≤ max p.x_max q.x_max - min p.x_min q.x_min),
        abs_of_nonneg (by omega : (0:Int) ≤ max p.z_max q.z_max - min p.z_min q.z_min),
        abs_of_nonneg (by omega : (0:Int) ≤ p.x_max - p.x_min),
        abs_of_nonneg (by omega : (0:Int) ≤ p.z_max - p.z_min),
        abs_of_nonneg (by omega : (0:Int) ≤ q.x_max - q.x_min),
        abs_of_nonneg (by omega : (0:Int) ≤ q.z_max - q.z_min)]
    rcases hadj with ⟨a1, a2, a3⟩ | ⟨a1, a2, a3⟩
    · have hD : max p.z_max q.z_max - min p.z_min q.z_min = p.z_max - p.z_min := by omega
      have hDq : q.z_max - q.z_min = p.z_max - p.z_min := by omega
      have hW : max p.x_max q.x_max - min p.x_min q.x_min + 1 =
          (p.x_max - p.x_min + 1) + (q.x_max - q.x_min + 1) := by
        rcases a3 with a3 | a3 <;> omega
      rw [hD, hDq, hW]
      ring
    · have hDx : max p.x_max q.x_max - min p.x_min q.x_min = p.x_max - p.x_min := by omega
      have hDxq : q.x_max - q.x_min = p.x_max - p.x_min := by omega
      have hW : max p.z_max q.z_max - min p.z_min q.z_min + 1 =
          (p.z_max - p.z_min + 1) + (q.z_max - q.z_min + 1) := by
        rcases a3 with a3 | a3 <;> omega
      rw [hDx, hDxq, hW]
      ring
  · constructor
    · rw [hx1, hx2]
      omega
    · rw [hz1, hz2]
      omega

/-- The inner absorption scan conserves total area over well-formed plots. -/
theorem absorb_area : ∀ {rest : List Plot} {p p' : Plot} {rem : List Plot}
    {rm : List String}, p.wfRect → (∀ q ∈ rest, q.wfRect) →
    absorb p rest = some (p', rem, rm) →
    p'.get_area_m2 + totalArea rem = p.get_area_m2 + totalArea rest ∧
      p'.wfRect ∧ ∀ q ∈ rem, q.wfRect := by
  intro rest
  induction rest with
  | nil =>
    intro p p' rem rm hp hrest h
    simp only [absorb, Option.some.injEq, Prod.mk.injEq] at h
    obtain ⟨rfl, rfl, rfl⟩ := h
    exact ⟨rfl, hp, by simp⟩
  | cons q qs ih =>
    intro p p' rem rm hp hrest h
    have hq : q.wfRect := hrest q (by simp)
    have hqs : ∀ x ∈ qs, x.wfRect := fun x hx => hrest x (by simp [hx])
    simp only [absorb] at h
    split at h
    · rename_i hcm
      split at h
      · exact absurd h (by simp)
      · rename_i pq hm
        split at h
        · exact absurd h (by simp)
        · rename_i p2 rem2 rm2 habs
          simp only [Option.some.injEq, Prod.mk.injEq] at h
          obtain ⟨rfl, rfl, rfl⟩ := h
          obtain ⟨hma, hmw⟩ := merge_area_wf hp hq hcm hm
          obtain ⟨hsum, hw, hrems⟩ := ih hmw hqs habs
          refine ⟨?_, hw, hrems⟩
          simp only [totalArea, List.map_cons, List.sum_cons] at hsum ⊢
          omega
    · rename_i hcm
      split at h
      · exact absurd h (by simp)
      · rename_i p2 rem2 rm2 habs
        simp only [Option.some.injEq, Prod.mk.injEq] at h
        obtain ⟨rfl, rfl, rfl⟩ := h
        obtain ⟨hsum, hw, hrems⟩ := ih hp hqs habs
        refine ⟨?_, hw, ?_⟩
        · simp only [totalArea, List.map_cons, List.sum_cons] at hsum ⊢
          omega
        · intro x hx
          simp only [List.mem_cons] at hx
          rcases hx with rfl | hx
          · exact hq
          · exact hrems x hx

/-- One full pass conserves total area over well-formed plots. -/
theorem onePassAux_area : ∀ {fuel : Nat} {l l' : List Plot} {rm : List String},
    l.length ≤ fuel → (∀ p ∈ l, p.wfRect) → onePassAux fuel l = some (l', rm) →
    totalArea l' = totalArea l ∧ ∀ p ∈ l', p.wfRect := by
  intro fuel
  induction fuel with
  | zero =>
    intro l l' rm hle hwf h
    cases l with
    | nil =>
      simp only [onePassAux, Option.some.injEq, Prod.mk.injEq] at h
      obtain ⟨rfl, rfl⟩ := h
      exact ⟨rfl, by simp⟩
    | cons p rest => simp at hle
  | succ fuel ih =>
    intro l l' rm hle hwf h
    cases l with
    | nil =>
      simp only [onePassAux, Option.some.injEq, Prod.mk.injEq] at h
      obtain ⟨rfl, rfl⟩ := h
      exact ⟨rfl, by simp⟩
    | cons p rest =>
      have hp : p.wfRect := hwf p (by simp)
      have hrest : ∀ x ∈ rest, x.wfRect := fun x hx => hwf x (by simp [hx])
      simp only [onePassAux] at h
      split at h
      · exact absurd h (by simp)
      · rename_i p2 rem2 rm2 habs
        split at h
        · exact absurd h (by simp)
        · rename_i l2 rm3 hop
          simp only [Option.some.injEq, Prod.mk.injEq] at h
          obtain ⟨rfl, rfl⟩ := h
          have hab := absorb_length habs
          obtain ⟨hsum, hw, hrems⟩ := absorb_area hp hrest habs
          have hlen : rem2.length ≤ fuel := by
            simp only [List.length_cons] at hle
            omega
          obtain ⟨hsum2, hw2⟩ := ih hlen hrems hop
          constructor
          · simp only [totalArea, List.map_cons, List.sum_cons] at hsum ⊢
            simp only [totalArea] at hsum2
            omega
          · intro x hx
            simp only [List.mem_cons] at hx
            rcases hx with rfl | hx
            · exact hw
            · exact hw2 x hx

/-- The whole fixed-point loop conserves total area over well-formed
plots. -/
theorem mergeLoopF_area : ∀ {f : Nat} {l : List Plot} {acc : List String}
    {out : List Plot} {rmAll : List String}, (∀ p ∈ l, p.wfRect) →
    (mergeLoopF f l acc).1 = some (out, rmAll) → totalArea out = totalArea l := by
  intro f
  induction f with
  | zero =>
    intro l acc out rmAll hwf h
    exact absurd h (by simp [mergeLoopF])
  | succ f ih =>
    intro l acc out rmAll hwf h
    simp only [mergeLoopF] at h
    cases hop : onePass l with
    | none => rw [hop] at h; exact absurd h (by simp)
    | some r =>
      obtain ⟨l', rm⟩ := r
      rw [hop] at h
      dsimp only at h
      obtain ⟨hsum, hw⟩ := onePassAux_area le_rfl hwf hop
      by_cases hrm : rm.isEmpty
      · rw [if_pos hrm] at h
        simp only [Option.some.injEq, Prod.mk.injEq] at h
        obtain ⟨rfl, -⟩ := h.1
        exact hsum
      · rw [if_neg hrm] at h
        have := ih hw h
        omega

/-- C3 (amended): for plots whose rectangles are in `low ≤ high` normal form,
whenever `merge_adjacent_plots` returns (does not raise), the total
`get_area_m2` of its output equals that of its input. -/
theorem merge_conserves_area_on_wf (plots out : List Plot) (rm : List String)
    (hwf : ∀ p ∈ plots, p.wfRect)
    (h : merge_adjacent_plots plots = some (out, rm)) :
    totalArea out = totalArea plots := by
  simp only [merge_adjacent_plots] at h
  by_cases he : plots.isEmpty
  · rw [if_pos he] at h
    simp only [Option.some.injEq, Prod.mk.injEq] at h
    obtain ⟨rfl, -⟩ := h
    rfl
  · rw [if_neg he] at h
    exact mergeLoopF_area hwf h

/-- Witness for C3 (amended) at spec scenario A: the two well-formed halves
merge into `x[0,19] z[0,9]` and the total area is conserved. -/
theorem merge_conserves_area_on_wf_witness :
    totalArea [mkPlot "A" "Alice" 0 0 19 9 "u1"] = totalArea [pAlice, pBob] :=
  merge_conserves_area_on_wf [pAlice, pBob] [mkPlot "A" "Alice" 0 0 19 9 "u1"] ["B"]
    (by decide) (by decide)

theorem digitChar10_isDigit (d : Nat) : (digitChar10 d).isDigit = true := by
  unfold digitChar10
  rcases d with _|_|_|_|_|_|_|_|_|_ <;> rfl

theorem digitVal_digitChar10 {d : Nat} (h : d < 10) : digitVal (digitChar10 d) = d := by
  interval_cases d <;> rfl

theorem natToDigitsAux_spec : ∀ {fuel n : Nat}, n < fuel →
    natToDigitsAux fuel n ≠ [] ∧ (∀ c ∈ natToDigitsAux fuel n, c.isDigit = true) ∧
      parseDigits (natToDigitsAux fuel n) = n := by
  intro fuel
  induction fuel with
  | zero => intro n h; omega
  | succ fuel ih =>
    intro n h
    simp only [natToDigitsAux]
    by_cases h10 : n < 10
    · rw [if_pos h10]
      refine ⟨by simp, ?_, ?_⟩
      · intro c hc
        simp only [List.mem_singleton] at hc
        subst hc
        exact digitChar10_isDigit n
      · simp only [parseDigits, List.foldl_cons, List.foldl_nil, Nat.zero_mul,
          Nat.zero_add]
        exact digitVal_digitChar10 h10
    · rw [if_neg h10]
      have hdiv : n / 10 < fuel := by omega
      obtain ⟨hne, hdig, hval⟩ := ih hdiv
      refine ⟨by simp, ?_, ?_⟩
      · intro c hc
        simp only [List.mem_append, List.mem_singleton] at hc
        rcases hc with hc | hc
        · exact hdig c hc
        · subst hc
          exact digitChar10_isDigit _
      · have happ : parseDigits (natToDigitsAux fuel (n / 10) ++ [digitChar10 (n % 10)]) =
            parseDigits (natToDigitsAux fuel (n / 10)) * 10 + digitVal (digitChar10 (n % 10)) := by
          simp [parseDigits, List.foldl_append]
        rw [happ, hval, digitVal_digitChar10 (by omega)]
        omega

/-- Round trip: the renamer's formatted name parses back to the number it
was formatted from. -/
theorem extract_natToStr (n : Nat) : extract_plot_number ("_PLOT_" ++ natToStr n) = some n := by
  obtain ⟨hne, hdig, hval⟩ := @natToDigitsAux_spec (n + 1) n (by omega)
  simp only [extract_plot_number, natToStr, String.data_append]
  rw [if_pos (List.isPrefixOf_iff_prefix.mpr (List.prefix_append _ _))]
  have hdrop : List.drop 6 (['_', 'P', 'L', 'O', 'T', '_'] ++ natToDigitsAux (n + 1) n) =
      natToDigitsAux (n + 1) n :=
    List.drop_left ['_', 'P', 'L', 'O', 'T', '_'] (natToDigitsAux (n + 1) n)
  rw [hdrop, List.takeWhile_eq_self_iff.mpr hdig]
  rw [if_neg (by simpa using hne)]
  rw [hval]

theorem zoneRename_extract (existing : Finset Nat) (sortedNums : List Nat) (z : AreaZone) :
    extract_plot_number ((zoneRename existing sortedNums z).1.name?.getD "") =
      (extract_plot_number (z.name?.getD "")).map
        (fun k => if k ∈ existing then sortedNums.indexOf k + 1 else k) := by
  unfold zoneRename
  cases hx : extract_plot_number (z.name?.getD "") with
  | none => exact hx
  | some oldNum =>
    dsimp only
    by_cases hmem : oldNum ∈ existing
    · rw [if_pos hmem]
      by_cases hne : oldNum ≠ sortedNums.indexOf oldNum + 1
      · rw [if_pos hne]
        simp only [Option.getD_some, Option.map_some', if_pos hmem]
        exact extract_natToStr _
      · rw [if_neg hne]
        push_neg at hne
        rw [Option.map_some', if_pos hmem, ← hne]
        exact hx
    · rw [if_neg hmem]
      rw [Option.map_some', if_neg hmem]
      exact hx

theorem zoneList_rename (existing : Finset Nat) (sortedNums : List Nat)
    (zs : List AreaZone) :
    (zs.map fun z => (zoneRename existing sortedNums z).1).filterMap
        (fun z => extract_plot_number (z.name?.getD "")) =
      (zs.filterMap fun z => extract_plot_number (z.name?.getD "")).map
        (fun k => if k ∈ existing then sortedNums.indexOf k + 1 else k) := by
  rw [List.filterMap_map, List.map_filterMap]
  apply List.filterMap_congr
  intro z hz
  exact zoneRename_extract existing sortedNums z

theorem wzRename_numbers (existing : Finset Nat) (sortedNums : List Nat) :
    ∀ wz : List (Int × ZoneData),
    ((wz.map fun p => (p.1, { p.2 with
        areaZones := p.2.areaZones.map fun z =>
          (zoneRename existing sortedNums z).1 })).flatMap
      fun p => p.2.areaZones).filterMap
        (fun z => extract_plot_number (z.name?.getD "")) =
      ((wz.flatMap fun p => p.2.areaZones).filterMap
        fun z => extract_plot_number (z.name?.getD "")).map
        (fun k => if k ∈ existing then sortedNums.indexOf k + 1 else k) := by
  intro wz
  induction wz with
  | nil => rfl
  | cons p rest ih =>
    simp only [List.map_cons, List.flatMap_cons, List.filterMap_append,
      List.map_append]
    rw [ih, zoneList_rename]

theorem numbersList_rename (doc : RawDoc) (existing : Finset Nat)
    (sortedNums : List Nat) :
    numbersList
      { doc with
        worldZones := doc.worldZones.map fun p =>
          (p.1, { p.2 with
            areaZones := p.2.areaZones.map fun z =>
              (zoneRename existing sortedNums z).1 }) } =
      (numbersList doc).map
        (fun k => if k ∈ existing then sortedNums.indexOf k + 1 else k) := by
  unfold numbersList docZones
  exact wzRename_numbers existing sortedNums doc.worldZones

theorem nodup_map_indexOf : ∀ (l : List Nat), l.Nodup →
    l.map (fun k => l.indexOf k) = List.range l.length := by
  intro l
  induction l with
  | nil => intro h; rfl
  | cons a t ih =>
    intro h
    obtain ⟨ha, ht⟩ := List.nodup_cons.mp h
    simp only [List.map_cons, List.indexOf_cons_self, List.length_cons]
    have h1 : t.map (fun k => List.indexOf k (a :: t)) =
        t.map (fun k => List.indexOf k t + 1) := by
      apply List.map_congr_left
      intro k hk
      have hka : a ≠ k := fun e => ha (e ▸ hk)
      exact List.indexOf_cons_ne t hka
    have h2 : t.map (fun k => List.indexOf k t + 1) =
        (t.map fun k => List.indexOf k t).map (· + 1) := by
      rw [List.map_map]
      rfl
    rw [h1, h2, ih ht, List.range_succ_eq_map]

theorem image_rank (l : List Nat) (hl : l.Nodup) :
    l.toFinset.image (fun k => l.indexOf k + 1) = Finset.Icc 1 l.length := by
  have h1 : l.toFinset.image (fun k => l.indexOf k + 1) =
      (l.map fun k => l.indexOf k + 1).toFinset := by
    ext x
    simp
  have h2 : l.map (fun k => l.indexOf k + 1) =
      (List.range l.length).map (· + 1) := by
    have : (fun k => List.indexOf k l + 1) =
        (fun m => m + 1) ∘ (fun k => List.indexOf k l) := rfl
    rw [this, ← List.map_map, nodup_map_indexOf l hl]
  rw [h1, h2]
  ext x
  simp only [List.mem_toFinset, List.mem_map, List.mem_range, Finset.mem_Icc]
  constructor
  · rintro ⟨i, hi, rfl⟩
    omega
  · rintro ⟨hx1, hx2⟩
    exact ⟨x - 1, by omega, by omega⟩

/-- C4: `renumber_plots` is idempotent — running it on the document part of
its own output returns that document unchanged with a rename count of 0. -/
theorem renumber_plots_idempotent (doc : RawDoc) :
    renumber_plots (renumber_plots doc).1 = ((renumber_plots doc).1, 0) := by
  by_cases h1 : docNumbers doc = ∅
  · have hr : renumber_plots doc = (doc, 0) := by
      unfold renumber_plots
      rw [if_pos h1]
    rw [hr]
    exact hr
  · by_cases h2 : docNumbers doc = Finset.Icc 1 (docNumbers doc).card
    · have hr : renumber_plots doc = (doc, 0) := by
        unfold renumber_plots
        rw [if_neg h1, if_pos h2]
      rw [hr]
      exact hr
    · have hD : (renumber_plots doc).1 =
          { doc with
            worldZones := doc.worldZones.map fun p =>
              (p.1, { p.2 with
                areaZones := p.2.areaZones.map fun z =>
                  (zoneRename (docNumbers doc)
                    (List.insertionSort (· ≤ ·) (numbersList doc).dedup) z).1 }) } := by
        unfold renumber_plots
        rw [if_neg h1, if_neg h2]
      have hperm : List.Perm
          (List.insertionSort (· ≤ ·) (numbersList doc).dedup)
          (numbersList doc).dedup := List.perm_insertionSort _ _
      have hnodup : (List.insertionSort (· ≤ ·) (numbersList doc).dedup).Nodup :=
        hperm.nodup_iff.mpr ((numbersList doc).nodup_dedup)
      have hfs : (List.insertionSort (· ≤ ·) (numbersList doc).dedup).toFinset =
          docNumbers doc := by
        ext x
        simp only [List.mem_toFinset, hperm.mem_iff, List.mem_dedup]
        simp [docNumbers]
      have hlen : (List.insertionSort (· ≤ ·) (numbersList doc).dedup).length =
          (docNumbers doc).card := by
        rw [← hfs, List.toFinset_card_of_nodup hnodup]
      have hnums : docNumbers (renumber_plots doc).1 =
          Finset.Icc 1 (docNumbers doc).card := by
        rw [hD]
        show (numbersList
          { doc with
            worldZones := doc.worldZones.map fun p =>
              (p.1, { p.2 with
                areaZones := p.2.areaZones.map fun z =>
                  (zoneRename (docNumbers doc)
                    (List.insertionSort (· ≤ ·) (numbersList doc).dedup) z).1 }) }).toFinset =
          Finset.Icc 1 (docNumbers doc).card
        rw [numbersList_rename doc (docNumbers doc)
          (List.insertionSort (· ≤ ·) (numbersList doc).dedup)]
        have hmapfin : ((numbersList doc).map
            (fun k => if k ∈ docNumbers doc then
              (List.insertionSort (· ≤ ·) (numbersList doc).dedup).indexOf k + 1
              else k)).toFinset =
            (numbersList doc).toFinset.image
              (fun k => if k ∈ docNumbers doc then
                (List.insertionSort (· ≤ ·) (numbersList doc).dedup).indexOf k + 1
                else k) := by
          ext x
          simp
        rw [hmapfin]
        have hcong : (numbersList doc).toFinset.image
            (fun k => if k ∈ docNumbers doc then
              (List.insertionSort (· ≤ ·) (numbersList doc).dedup).indexOf k + 1
              else k) =
            (numbersList doc).toFinset.image
              (fun k =>
                (List.insertionSort (· ≤ ·) (numbersList doc).dedup).indexOf k + 1) := by
          apply Finset.image_congr
          intro x hx
          have hxex : x ∈ docNumbers doc := by
            simpa [docNumbers] using hx
          dsimp only
          rw [if_pos hxex]
        rw [hcong]
        have htf : (numbersList doc).toFinset =
            (List.insertionSort (· ≤ ·) (numbersList doc).dedup).toFinset := by
          rw [hfs]
          simp [docNumbers]
        rw [htf, image_rank _ hnodup, hlen]
      have hne2 : ¬ docNumbers (renumber_plots doc).1 = ∅ := by
        rw [hnums]
        have hpos : 0 < (docNumbers doc).card :=
          Finset.card_pos.mpr (Finset.nonempty_iff_ne_empty.mpr h1)
        intro hemp
        have hmem : (1:ℕ) ∈ Finset.Icc 1 (docNumbers doc).card :=
          Finset.mem_Icc.mpr ⟨le_rfl, hpos⟩
        rw [hemp] at hmem
        exact absurd hmem (Finset.not_mem_empty 1)
      have hicc : docNumbers (renumber_plots doc).1 =
          Finset.Icc 1 (docNumbers (renumber_plots doc).1).card := by
        rw [hnums]
        have hcard : (Finset.Icc 1 (docNumbers doc).card).card =
            (docNumbers doc).card := by
          simp
        rw [hcard]
      have hgen : ∀ d : RawDoc, ¬ docNumbers d = ∅ →
          docNumbers d = Finset.Icc 1 (docNumbers d).card → renumber_plots d = (d, 0) := by
        intro d hne hi
        unfold renumber_plots
        rw [if_neg hne, if_pos hi]
      exact hgen _ hne2 hicc

theorem cornerFrame_refl (c : Option CoordDict) : cornerFrame c c := by
  cases c <;> simp [cornerFrame]

theorem areaFrame_refl (a : Option AreaRect) : areaFrame a a := by
  cases a <;> simp [areaFrame, cornerFrame_refl]

theorem zoneFrame_refl (z : AreaZone) : zoneFrame z z :=
  ⟨rfl, rfl, rfl, rfl, areaFrame_refl z.area?⟩

theorem cornerFrame_trans {a b c : Option CoordDict}
    (h1 : cornerFrame a b) (h2 : cornerFrame b c) : cornerFrame a c := by
  cases a <;> cases b <;> cases c <;> simp_all [cornerFrame]

theorem areaFrame_trans {a b c : Option AreaRect}
    (h1 : areaFrame a b) (h2 : areaFrame b c) : areaFrame a c := by
  cases a with
  | none =>
    cases b with
    | none =>
      cases c with
      | none => trivial
      | some c1 => exact absurd h2 (by simp [areaFrame])
    | some b1 => exact absurd h1 (by simp [areaFrame])
  | some a1 =>
    cases b with
    | none => exact absurd h1 (by simp [areaFrame])
    | some b1 =>
      cases c with
      | none => exact absurd h2 (by simp [areaFrame])
      | some c1 =>
        obtain ⟨e1, l1, r1⟩ := h1
        obtain ⟨e2, l2, r2⟩ := h2
        exact ⟨e1.trans e2, cornerFrame_trans l1 l2, cornerFrame_trans r1 r2⟩

theorem zoneFrame_trans {x y z : AreaZone}
    (h1 : zoneFrame x y) (h2 : zoneFrame y z) : zoneFrame x z :=
  ⟨h1.1.trans h2.1, h1.2.1.trans h2.2.1, h1.2.2.1.trans h2.2.2.1,
   h1.2.2.2.1.trans h2.2.2.2.1, areaFrame_trans h1.2.2.2.2 h2.2.2.2.2⟩

theorem updateZoneCoords_frame {p : Plot} {z z' : AreaZone}
    (h : updateZoneCoords p z = some z') : zoneFrame z z' := by
  unfold updateZoneCoords at h
  split at h
  · exact absurd h (by simp)
  · rename_i ar har
    split at h
    · rename_i lo hi hlo hhi
      simp only [Option.some.injEq] at h
      subst h
      refine ⟨rfl, rfl, rfl, rfl, ?_⟩
      rw [har]
      simp [areaFrame, cornerFrame, hlo, hhi]
    · exact absurd h (by simp)

theorem updateFirst_frame {p : Plot} : ∀ {zs zs' : List AreaZone},
    updateFirst p zs = some zs' → List.Forall₂ zoneFrame zs zs' := by
  intro zs
  induction zs with
  | nil =>
    intro zs' h
    simp only [updateFirst, Option.some.injEq] at h
    subst h
    exact List.Forall₂.nil
  | cons z rest ih =>
    intro zs' h
    simp only [updateFirst] at h
    split at h
    · split at h
      · exact absurd h (by simp)
      · rename_i z2 hz2
        simp only [Option.some.injEq] at h
        subst h
        exact List.Forall₂.cons (updateZoneCoords_frame hz2)
          (List.forall₂_same.mpr fun x _ => zoneFrame_refl x)
    · split at h
      · exact absurd h (by simp)
      · rename_i rest2 hrest2
        simp only [Option.some.injEq] at h
        subst h
        exact List.Forall₂.cons (zoneFrame_refl z) (ih hrest2)

/-- Relation between dimension entries: key and non-zone data preserved,
zones related pointwise by `zoneFrame`. -/
def dimFrame (a b : Int × ZoneData) : Prop :=
  a.1 = b.1 ∧ a.2.extra = b.2.extra ∧ List.Forall₂ zoneFrame a.2.areaZones b.2.areaZones

theorem dimFrame_refl (a : Int × ZoneData) : dimFrame a a :=
  ⟨rfl, rfl, List.forall₂_same.mpr fun x _ => zoneFrame_refl x⟩

theorem updateDims_frame {p : Plot} : ∀ {wz wz' : List (Int × ZoneData)},
    updateDims p wz = some wz' → List.Forall₂ dimFrame wz wz' := by
  intro wz
  induction wz with
  | nil =>
    intro wz' h
    simp only [updateDims, Option.some.injEq] at h
    subst h
    exact List.Forall₂.nil
  | cons d rest ih =>
    intro wz' h
    obtain ⟨dk, zd⟩ := d
    simp only [updateDims] at h
    split at h
    · split at h
      · exact absurd h (by simp)
      · rename_i zs2 hzs2
        simp only [Option.some.injEq] at h
        subst h
        exact List.Forall₂.cons ⟨rfl, rfl, updateFirst_frame hzs2⟩
          (List.forall₂_same.mpr fun x _ => dimFrame_refl x)
    · split at h
      · exact absurd h (by simp)
      · rename_i rest2 hrest2
        simp only [Option.some.injEq] at h
        subst h
        exact List.Forall₂.cons (dimFrame_refl (dk, zd)) (ih hrest2)

theorem forall2_comp {α β γ : Type} {R : α → β → Prop} {S : β → γ → Prop}
    {T : α → γ → Prop} (h : ∀ a b c, R a b → S b c → T a c) :
    ∀ {l1 : List α} {l2 : List β} {l3 : List γ},
    List.Forall₂ R l1 l2 → List.Forall₂ S l2 l3 → List.Forall₂ T l1 l3 := by
  intro l1 l2 l3 h12
  induction h12 generalizing l3 with
  | nil =>
    intro h23
    cases h23
    exact List.Forall₂.nil
  | cons hab htl ih =>
    intro h23
    cases h23 with
    | cons hbc htl2 => exact List.Forall₂.cons (h _ _ _ hab hbc) (ih htl2)

theorem foldl_updateDims_frame {plots : List Plot} :
    ∀ {w0 w : List (Int × ZoneData)},
    plots.foldl (fun acc p => acc.bind (updateDims p)) (some w0) = some w →
    List.Forall₂ dimFrame w0 w := by
  induction plots with
  | nil =>
    intro w0 w h
    simp only [List.foldl_nil, Option.some.injEq] at h
    subst h
    exact List.forall₂_same.mpr fun x _ => dimFrame_refl x
  | cons p ps ih =>
    intro w0 w h
    simp only [List.foldl_cons, Option.some_bind] at h
    cases h1 : updateDims p w0 with
    | none =>
      rw [h1] at h
      have : ∀ (l : List Plot),
          l.foldl (fun acc p => acc.bind (updateDims p)) none = none := by
        intro l
        induction l with
        | nil => rfl
        | cons q qs ihq => simp only [List.foldl_cons, Option.none_bind]; exact ihq
      rw [this ps] at h
      exact absurd h (by simp)
    | some w1 =>
      rw [h1] at h
      exact forall2_comp (T := dimFrame) (fun a b c hab hbc =>
        ⟨hab.1.trans hbc.1, hab.2.1.trans hbc.2.1,
         forall2_comp (R := zoneFrame) (S := zoneFrame) (T := zoneFrame)
           (fun x y z hxy hyz => zoneFrame_trans hxy hyz) hab.2.2 hbc.2.2⟩)
        (updateDims_frame h1) (ih h)

/-- C8: when `update_json_with_merged_plots` returns, the output document
keeps the top-level extra data, the dimension keys and the per-dimension
extra data; within every dimension the zones whose name is in the removed
list are dropped and every surviving zone is identical to its input
counterpart except possibly for the four coordinate fields `low.x`, `low.z`,
`high.x`, `high.z` (relation `docFrame`).  The "never mutates its input"
part of the claim is inherent to the embedding: the source deep-copies the
document and the embedding is a pure function of it. -/
theorem patcher_frame (doc : RawDoc) (merged_plots : List Plot)
    (removed_names : List String) (out : RawDoc)
    (h : update_json_with_merged_plots doc merged_plots removed_names = some out) :
    docFrame removed_names doc out := by
  unfold update_json_with_merged_plots at h
  dsimp only at h
  cases hf : merged_plots.foldl (fun acc p => acc.bind (updateDims p))
      (some (doc.worldZones.map fun p =>
        (p.1, { p.2 with areaZones := removeNamed removed_names p.2.areaZones }))) with
  | none =>
    rw [hf] at h
    exact absurd h (by simp)
  | some wz =>
    rw [hf] at h
    simp only [Option.map_some', Option.some.injEq] at h
    subst h
    refine ⟨rfl, ?_⟩
    have h1 : List.Forall₂ dimFrame
        (doc.worldZones.map fun p =>
          (p.1, { p.2 with areaZones := removeNamed removed_names p.2.areaZones })) wz :=
      foldl_updateDims_frame hf
    have h2 := List.forall₂_map_left_iff.mp h1
    exact h2.imp fun {a b} hab => ⟨hab.1, hab.2.1, hab.2.2⟩

/-- Witness for C8 at a concrete two-zone document: zone `B` is removed,
zone `A`'s rectangle is overwritten with the merged plot's bounds, and the
frame relation holds. -/
theorem patcher_frame_witness :
    update_json_with_merged_plots docPatch [pPatch] ["B"] = some docPatchOut ∧
      docFrame ["B"] docPatch docPatchOut :=
  ⟨by decide, patcher_frame docPatch [pPatch] ["B"] docPatchOut (by decide)⟩
